import Mathlib

set_option maxHeartbeats 1000000
set_option maxRecDepth 4000

namespace ModbusRTU

/-!
Shallow embedding of the hand-rolled Modbus RTU codec and slave dispatcher
(`Slave_5.py` / `Master_5.py`).  Byte strings are modelled as `List Nat`
whose entries are byte values; Python integer arithmetic on 16-bit
accumulators is modelled with `Nat` together with the masks the source
itself applies.
-/

/-- One iteration of the inner CRC loop of `crc16_modbus`:
`lsb = crc & 1; crc >>= 1; if lsb: crc ^= 0xA001`. -/
def crcShiftStep (crc : Nat) : Nat :=
  let lsb := crc &&& 0x0001
  let crc2 := crc >>> 1
  if lsb ≠ 0 then crc2 ^^^ 0xA001 else crc2

/-- Processing of one input byte by `crc16_modbus`:
`crc ^= b` followed by the eight-fold inner loop (`for _ in range(8)`). -/
def crcByteStep (crc b : Nat) : Nat :=
  (List.range 8).foldl (fun c _ => crcShiftStep c) (crc ^^^ b)

/-- `crc16_modbus(data)` from the source: accumulator starts at `0xFFFF`,
every byte is folded in with `crcByteStep`, and the result is masked with
`& 0xFFFF`. -/
def crc16_modbus (data : List Nat) : Nat :=
  (data.foldl crcByteStep 0xFFFF) &&& 0xFFFF

/-- Little-endian two-byte encoding of a 16-bit value, as produced by
Python's `struct.pack` with a little-endian unsigned-short format. -/
def u16_le (v : Nat) : List Nat := [v % 256, v / 256 % 256]

/-- Little-endian decoding of two bytes, as `struct.unpack` with the
little-endian unsigned-short format does. -/
def le16 (lo hi : Nat) : Nat := lo + 256 * hi

/-- Big-endian two-byte encoding of a 16-bit value (`struct.pack`,
big-endian unsigned short). -/
def pack_be16 (v : Nat) : List Nat := [v / 256 % 256, v % 256]

/-- Big-endian decoding of two bytes (`struct.unpack`, big-endian
unsigned short). -/
def be16 (hi lo : Nat) : Nat := 256 * hi + lo

/-- `append_crc(frame)` from the source: the frame followed by the
little-endian encoding of its CRC16. -/
def append_crc (frame : List Nat) : List Nat :=
  frame ++ u16_le (crc16_modbus frame)

/-- Reference formulation of one CRC round, following the spec text:
perform a rightward shift and XOR in the polynomial constant `0xA001`
whenever the shifted-out bit was 1. -/
def crc16_ref_round (c : Nat) : Nat :=
  if c % 2 = 1 then (c / 2) ^^^ 0xA001 else c / 2

/-- Reference accumulator recursion: XOR each input byte into the
accumulator, then apply eight reference rounds. -/
def crc16_ref_accum : Nat → List Nat → Nat
  | acc, [] => acc
  | acc, b :: rest => crc16_ref_accum (crc16_ref_round^[8] (acc ^^^ b)) rest

/-- Reference Modbus CRC16, accumulator initialised to `0xFFFF`. -/
def crc16_ref (data : List Nat) : Nat :=
  crc16_ref_accum 0xFFFF data

theorem foldl_range_const {f : Nat → Nat} :
    ∀ (n : Nat) (x : Nat), (List.range n).foldl (fun c _ => f c) x = f^[n] x := by
  intro n
  induction n with
  | zero => intro x; rfl
  | succ n ih =>
      intro x
      rw [List.range_succ, List.foldl_append, ih, Function.iterate_succ_apply']
      rfl

theorem crcShiftStep_eq_ref (c : Nat) : crcShiftStep c = crc16_ref_round c := by
  have h1 : c &&& 1 = c % 2 := by
    have h := Nat.one_and_eq_mod_two c
    rwa [Nat.and_comm] at h
  have h2 : c >>> 1 = c / 2 := by
    rw [Nat.shiftRight_eq_div_pow]
  unfold crcShiftStep crc16_ref_round
  rcases Nat.mod_two_eq_zero_or_one c with h | h <;> simp [h1, h2, h]

theorem crcByteStep_eq_ref (crc b : Nat) :
    crcByteStep crc b = crc16_ref_round^[8] (crc ^^^ b) := by
  unfold crcByteStep
  rw [foldl_range_const]
  have h : crcShiftStep = crc16_ref_round := funext crcShiftStep_eq_ref
  rw [h]

theorem foldl_crcByteStep_eq_ref_accum :
    ∀ (l : List Nat) (acc : Nat), l.foldl crcByteStep acc = crc16_ref_accum acc l := by
  intro l
  induction l with
  | nil => intro acc; rfl
  | cons b rest ih =>
      intro acc
      rw [List.foldl_cons, ih, crcByteStep_eq_ref]
      rfl

theorem crcShiftStep_lt {c : Nat} (h : c < 65536) : crcShiftStep c < 65536 := by
  rw [crcShiftStep_eq_ref]
  have hp : (2 : Nat) ^ 16 = 65536 := by norm_num
  unfold crc16_ref_round
  split
  · have hx : c / 2 < 2 ^ 16 := by omega
    have hy : (0xA001 : Nat) < 2 ^ 16 := by norm_num
    have hxy := Nat.xor_lt_two_pow hx hy
    omega
  · omega

theorem crcShiftStep_iter_lt {x : Nat} (n : Nat) (h : x < 65536) :
    crcShiftStep^[n] x < 65536 := by
  induction n generalizing x with
  | zero => simpa using h
  | succ n ih =>
      rw [Function.iterate_succ_apply]
      exact ih (crcShiftStep_lt h)

theorem crcByteStep_lt {crc b : Nat} (hc : crc < 65536) (hb : b < 256) :
    crcByteStep crc b < 65536 := by
  have hp : (2 : Nat) ^ 16 = 65536 := by norm_num
  have hx : crc ^^^ b < 65536 := by
    have hxy := Nat.xor_lt_two_pow (x := crc) (y := b) (n := 16) (by omega) (by omega)
    omega
  unfold crcByteStep
  rw [foldl_range_const]
  exact crcShiftStep_iter_lt 8 hx

theorem crc_accum_lt :
    ∀ (l : List Nat) (acc : Nat), (∀ x ∈ l, x < 256) → acc < 65536 →
      l.foldl crcByteStep acc < 65536 := by
  intro l
  induction l with
  | nil => intro acc _ h; simpa using h
  | cons b rest ih =>
      intro acc hl hacc
      rw [List.foldl_cons]
      exact ih _ (fun x hx => hl x (List.mem_cons_of_mem _ hx))
        (crcByteStep_lt hacc (hl b (List.mem_cons_self _ _)))

theorem crc16_modbus_lt (data : List Nat) : crc16_modbus data < 65536 := by
  unfold crc16_modbus
  have h := Nat.and_le_right (n := data.foldl crcByteStep 0xFFFF) (m := 0xFFFF)
  omega

theorem crc16_modbus_eq_ref (data : List Nat) (hb : ∀ x ∈ data, x < 256) :
    crc16_modbus data = crc16_ref data := by
  unfold crc16_modbus crc16_ref
  have hlt : data.foldl crcByteStep 0xFFFF < 65536 :=
    crc_accum_lt data 0xFFFF hb (by norm_num)
  have hmask := Nat.and_pow_two_sub_one_eq_mod (data.foldl crcByteStep 0xFFFF) 16
  norm_num at hmask
  rw [hmask, Nat.mod_eq_of_lt hlt, foldl_crcByteStep_eq_ref_accum]

/-- C1: for every byte sequence `b`, `crc16_modbus b` equals the reference
Modbus CRC16 (accumulator initialised to `0xFFFF`, each byte XOR-ed into the
low byte, then 8 right shifts XOR-ing `0xA001` whenever the shifted-out bit
was 1); it is a pure function of its input, and the last two bytes of
`append_crc b` decode little-endian to `crc16_modbus b`. -/
theorem crc16_roundtrip (b : List Nat) (hb : ∀ x ∈ b, x < 256) :
    crc16_modbus b = crc16_ref b ∧
    ∃ lo hi, append_crc b = b ++ [lo, hi] ∧ le16 lo hi = crc16_modbus b := by
  refine ⟨crc16_modbus_eq_ref b hb,
    crc16_modbus b % 256, crc16_modbus b / 256 % 256, rfl, ?_⟩
  have h := crc16_modbus_lt b
  unfold le16
  omega

/-- Witness for C1 at the concrete byte sequence `[1, 2, 3]`. -/
theorem crc16_roundtrip_witness :
    (∀ x ∈ [(1 : Nat), 2, 3], x < 256) ∧
    (crc16_modbus [1, 2, 3] = crc16_ref [1, 2, 3] ∧
      ∃ lo hi, append_crc [1, 2, 3] = [1, 2, 3] ++ [lo, hi] ∧
        le16 lo hi = crc16_modbus [1, 2, 3]) :=
  ⟨by decide, crc16_roundtrip [1, 2, 3] (by decide)⟩

/-- Configured slave address (`UNIT_ID = 1` in the source). -/
def UNIT_ID : Nat := 1

/-- The slave's register store: the module-level `COILS` and `HOLDING`
lists of the source (each 16 entries long in the running program). -/
structure SlaveState where
  coils : List Nat
  holding : List Nat
deriving DecidableEq, Repr

/-- The store at process start: `COILS = [0]*16`, `HOLDING = [0]*16`. -/
def initState : SlaveState :=
  { coils := List.replicate 16 0, holding := List.replicate 16 0 }

/-- Outcome of `handle_request`: an encoded response frame, `None`
(frame silently dropped), or a raised Python exception (the
`UnboundLocalError` reachable in the 0x01 branch). -/
inductive HandleResult where
  | response (bytes : List Nat)
  | dropped
  | raisedError
deriving DecidableEq, Repr

/-- `pack_coils(start, count)` from the source, with the `COILS` array
passed explicitly: slice the coil list, allocate `ceil(count/8)` zero
bytes, and OR bit `i mod 8` into byte `i / 8` for every truthy bit. -/
def pack_coils (coilsArr : List Nat) (start count : Nat) : List Nat :=
  let bits := (coilsArr.drop start).take count
  let byte_count := (count + 7) / 8
  bits.enum.foldl
    (fun out p =>
      if p.2 ≠ 0 then
        out.set (p.1 / 8) ((out.getD (p.1 / 8) 0) ||| (1 <<< (p.1 % 8)))
      else out)
    (List.replicate byte_count 0)

/-- `handle_request(req)` from the source, with the mutable module state
passed and returned explicitly.  Returns the successor state together
with the handler's outcome. -/
def handle_request (st : SlaveState) (req : List Nat) : SlaveState × HandleResult :=
  if req.length < 8 then (st, .dropped)
  else
    let addr := req.getD 0 0
    let func := req.getD 1 0
    if addr ≠ UNIT_ID then (st, .dropped)
    else if crc16_modbus (req.take (req.length - 2)) ≠
        le16 (req.getD (req.length - 2) 0) (req.getD (req.length - 1) 0) then
      (st, .dropped)
    else if func = 0x05 ∧ req.length = 8 then
      let coil_addr := be16 (req.getD 2 0) (req.getD 3 0)
      let value := be16 (req.getD 4 0) (req.getD 5 0)
      let coils2 :=
        if coil_addr < st.coils.length then
          st.coils.set coil_addr (if value = 0xFF00 then 1 else 0)
        else st.coils
      ({ st with coils := coils2 }, .response (append_crc (req.take (req.length - 2))))
    else if func = 0x01 ∧ req.length = 8 then
      let start := be16 (req.getD 2 0) (req.getD 3 0)
      let qty := be16 (req.getD 4 0) (req.getD 5 0)
      if start + qty ≤ st.coils.length then
        let data_bytes := pack_coils st.coils start qty
        (st, .response (append_crc ([UNIT_ID, 0x01, data_bytes.length] ++ data_bytes)))
      else
        (st, .raisedError)
    else if func = 0x03 ∧ req.length = 8 then
      let start := be16 (req.getD 2 0) (req.getD 3 0)
      let qty := be16 (req.getD 4 0) (req.getD 5 0)
      let regs := (st.holding.drop start).take qty
      let data := regs.flatMap (fun r => pack_be16 (r &&& 0xFFFF))
      (st, .response (append_crc ([UNIT_ID, 0x03, data.length] ++ data)))
    else
      (st, .response (append_crc [UNIT_ID, func ||| 0x80, 0x01]))

/-- Response validation performed by `ModbusMaster._transact` after the
serial read: fail on a short read, fail on a CRC mismatch over
all-but-last-two bytes, otherwise return the buffer unchanged. -/
def transact_validate (expected_min_len : Nat) (resp : List Nat) : Option (List Nat) :=
  if resp.length < expected_min_len then none
  else if crc16_modbus (resp.take (resp.length - 2)) ≠
      le16 (resp.getD (resp.length - 2) 0) (resp.getD (resp.length - 1) 0) then none
  else some resp

/-- The request frame built by `ModbusMaster.write_coil`. -/
def write_coil_request (slave_id address : Nat) (value : Bool) : List Nat :=
  append_crc ([slave_id, 0x05] ++ pack_be16 address ++
    pack_be16 (if value then 0xFF00 else 0x0000))

/-- Decode/result step of `ModbusMaster.write_coil` on a received buffer:
`bool(resp)` of the `_transact` result, with `expected_min_len = 8`. -/
def write_coil_result (resp : List Nat) : Bool :=
  match transact_validate 8 resp with
  | none => false
  | some r => !r.isEmpty

/-- The bit-collection loop of `ModbusMaster.read_coils`: append the bits
of each data byte low-bit first, returning as soon as `count` bits have
been collected. -/
def bits_from_bytes (count : Nat) (data_bytes : List Nat) : List Nat :=
  (data_bytes.foldl
    (fun (p : List Nat × Bool) b =>
      if p.2 then p
      else (List.range 8).foldl
        (fun (q : List Nat × Bool) i =>
          if q.2 then q
          else
            let acc := q.1 ++ [(b >>> i) &&& 0x01]
            (acc, decide (count ≤ acc.length)))
        p)
    ([], false)).1

/-- One kind of atomic step of the combined slave-side system. -/
inductive StepKind where
  | tick (elapsed : Bool)
  | frame (req : List Nat)
  | localSet (v : Nat)
deriving Repr

/-- One step of the combined system on (store, UI counter): a simulation
tick of `SlaveUI.ui_loop` (which writes `HOLDING[0]` only when coil 0 is
set and at least one second has elapsed), dispatch of one frame by the
serial worker, or a local button press (`SlaveUI.set_coil`). -/
def sysStep : SlaveState × Nat → StepKind → SlaveState × Nat
  | (st, cnt), .tick elapsed =>
      if st.coils.getD 0 0 ≠ 0 then
        if elapsed then ({ st with holding := st.holding.set 0 (cnt + 1) }, cnt + 1)
        else (st, cnt)
      else (st, cnt)
  | (st, cnt), .frame req => ((handle_request st req).1, cnt)
  | (st, cnt), .localSet v =>
      ({ st with coils := st.coils.set 0 (if v ≠ 0 then 1 else 0) }, cnt)

theorem xor_ne_self {x y : Nat} (hy : y ≠ 0) : x ^^^ y ≠ x := by
  intro h
  apply hy
  calc y = x ^^^ (x ^^^ y) := by rw [← Nat.xor_assoc, Nat.xor_self, Nat.zero_xor]
    _ = x ^^^ x := by rw [h]
    _ = 0 := Nat.xor_self x

/-- C5: an 8-byte frame whose first byte differs from the configured unit
id produces no response and leaves both the coil and holding arrays
unchanged, whatever its function code, payload or CRC. -/
theorem unit_mismatch_dropped (st : SlaveState) (req : List Nat)
    (h8 : req.length = 8) (hu : req.getD 0 0 ≠ UNIT_ID) :
    handle_request st req = (st, HandleResult.dropped) := by
  unfold handle_request
  rw [if_neg (by omega : ¬ req.length < 8)]
  simp only [hu]
  rw [if_pos (by trivial)]

/-- Witness for C5 at a concrete frame addressed to unit 2. -/
theorem unit_mismatch_dropped_witness :
    handle_request initState [2, 5, 0, 0, 0, 0, 0, 0] =
      (initState, HandleResult.dropped) :=
  unit_mismatch_dropped initState [2, 5, 0, 0, 0, 0, 0, 0] (by decide) (by decide)

theorem eq_cons8_of_length_eight (l : List Nat) (h : l.length = 8) :
    ∃ a0 a1 a2 a3 a4 a5 a6 a7, l = [a0, a1, a2, a3, a4, a5, a6, a7] := by
  cases l with
  | nil => simp at h
  | cons a0 t0 =>
  cases t0 with
  | nil => simp at h
  | cons a1 t1 =>
  cases t1 with
  | nil => simp at h
  | cons a2 t2 =>
  cases t2 with
  | nil => simp at h
  | cons a3 t3 =>
  cases t3 with
  | nil => simp at h
  | cons a4 t4 =>
  cases t4 with
  | nil => simp at h
  | cons a5 t5 =>
  cases t5 with
  | nil => simp at h
  | cons a6 t6 =>
  cases t6 with
  | nil => simp at h
  | cons a7 t7 =>
  cases t7 with
  | nil => exact ⟨a0, a1, a2, a3, a4, a5, a6, a7, rfl⟩
  | cons a8 t8 => simp at h

/-- C4: an 8-byte frame with matching unit id and valid CRC whose function
code is none of 0x01/0x03/0x05 yields the illegal-function exception
response: `[unit][func | 0x80][0x01]` followed by the little-endian CRC16
of those three bytes. -/
theorem unsupported_function_exception (st : SlaveState) (req : List Nat)
    (h8 : req.length = 8) (hu : req.getD 0 0 = UNIT_ID)
    (hcrc : crc16_modbus (req.take 6) = le16 (req.getD 6 0) (req.getD 7 0))
    (h1 : req.getD 1 0 ≠ 0x01) (h3 : req.getD 1 0 ≠ 0x03) (h5 : req.getD 1 0 ≠ 0x05) :
    handle_request st req =
      (st, HandleResult.response
        ([UNIT_ID, req.getD 1 0 ||| 0x80, 0x01] ++
          u16_le (crc16_modbus [UNIT_ID, req.getD 1 0 ||| 0x80, 0x01]))) := by
  obtain ⟨r0, r1, r2, r3, r4, r5, r6, r7, rfl⟩ := eq_cons8_of_length_eight req h8
  simp only [List.getD_cons_zero, List.getD_cons_succ] at hu h1 h3 h5 hcrc ⊢
  subst hu
  unfold handle_request
  simp only [List.take_succ_cons, List.take_zero] at hcrc
  norm_num [hcrc, h1, h3, h5, append_crc]

/-- Witness for C4: function code 0x06 yields `[1][0x86][0x01]` plus CRC. -/
theorem unsupported_function_exception_witness :
    handle_request initState (append_crc [1, 6, 0, 0, 0, 0]) =
      (initState, HandleResult.response [1, 134, 1, 131, 160]) := by
  rw [unsupported_function_exception initState (append_crc [1, 6, 0, 0, 0, 0])
    (by decide) (by decide) (by decide) (by decide) (by decide) (by decide)]
  rfl

/-- C2 is refuted by the code: this valid read-coils request (unit 1,
start 0, quantity 17, correct CRC) drives the 0x01 branch past its bounds
check with `data_bytes` never assigned, so `handle_request` raises
`UnboundLocalError` instead of returning a response or dropping the
frame. -/
theorem read_coils_out_of_range_raises :
    handle_request initState (append_crc [1, 1, 0, 0, 0, 17]) =
      (initState, HandleResult.raisedError) := by decide

/-- C7 (counterexample): an 8-byte buffer with a valid CRC whose
function-code byte has the high bit set (an exception indication under
the master-side decode rules) is still reported as success by
`write_coil`. -/
theorem write_coil_ignores_exception_bit :
    write_coil_result (append_crc [1, 0x85, 0, 0, 0, 0]) = true ∧
    (append_crc [1, 0x85, 0, 0, 0, 0]).getD 1 0 &&& 0x80 ≠ 0 := by decide

/-- C7 (amended): `write_coil` reports success exactly when the received
buffer is at least 8 bytes long and its CRC16 over all-but-last-two bytes
matches the trailing two bytes little-endian; the exception bit of the
function-code byte is not examined. -/
theorem write_coil_result_iff (resp : List Nat) :
    write_coil_result resp = true ↔
      (8 ≤ resp.length ∧
        crc16_modbus (resp.take (resp.length - 2)) =
          le16 (resp.getD (resp.length - 2) 0) (resp.getD (resp.length - 1) 0)) := by
  unfold write_coil_result transact_validate
  split_ifs with hlen hcrc
  · constructor
    · intro h; exact h.elim
    · intro h; exact absurd h.1 (by omega)
  · constructor
    · intro h; exact h.elim
    · intro h; exact (hcrc h.2).elim
  · have hne : resp.isEmpty = false := by
      cases resp with
      | nil => simp at hlen
      | cons a t => rfl
    show (!resp.isEmpty) = true ↔ _
    rw [hne, Bool.not_false]
    constructor
    · intro _; exact ⟨by omega, not_not.mp hcrc⟩
    · intro _; rfl

/-- Witness for the amended C7 statement at a concrete valid echo buffer. -/
theorem write_coil_result_iff_witness :
    write_coil_result (append_crc [1, 5, 0, 0, 255, 0]) = true ↔
      (8 ≤ (append_crc [1, 5, 0, 0, 255, 0]).length ∧
        crc16_modbus ((append_crc [1, 5, 0, 0, 255, 0]).take
            ((append_crc [1, 5, 0, 0, 255, 0]).length - 2)) =
          le16 ((append_crc [1, 5, 0, 0, 255, 0]).getD
              ((append_crc [1, 5, 0, 0, 255, 0]).length - 2) 0)
            ((append_crc [1, 5, 0, 0, 255, 0]).getD
              ((append_crc [1, 5, 0, 0, 255, 0]).length - 1) 0)) :=
  write_coil_result_iff (append_crc [1, 5, 0, 0, 255, 0])

/-- C10: a valid 8-byte write-single-coil request whose coil address is at
or past the end of the 16-entry coil array mutates neither array and still
returns the success echo (the first six request bytes re-CRC'd), which
equals the original request — no error is signalled to the master. -/
theorem write_coil_out_of_range_echo (st : SlaveState) (req : List Nat)
    (h8 : req.length = 8) (hbytes : ∀ x ∈ req, x < 256)
    (hu : req.getD 0 0 = UNIT_ID) (hf : req.getD 1 0 = 0x05)
    (hcrc : crc16_modbus (req.take 6) = le16 (req.getD 6 0) (req.getD 7 0))
    (hlen : st.coils.length = 16)
    (haddr : 16 ≤ be16 (req.getD 2 0) (req.getD 3 0)) :
    handle_request st req = (st, HandleResult.response req) := by
  obtain ⟨r0, r1, r2, r3, r4, r5, r6, r7, rfl⟩ := eq_cons8_of_length_eight req h8
  simp only [List.getD_cons_zero, List.getD_cons_succ] at hu hf hcrc haddr
  simp only [List.take_succ_cons, List.take_zero] at hcrc
  subst hu
  subst hf
  have h6 : r6 < 256 := hbytes r6 (by simp)
  have h7 : r7 < 256 := hbytes r7 (by simp)
  have hlt := crc16_modbus_lt [UNIT_ID, 5, r2, r3, r4, r5]
  have hnot : ¬ (be16 r2 r3 < st.coils.length) := by omega
  have e1 : crc16_modbus [UNIT_ID, 5, r2, r3, r4, r5] % 256 = r6 := by
    unfold le16 at hcrc
    omega
  have e2 : crc16_modbus [UNIT_ID, 5, r2, r3, r4, r5] / 256 % 256 = r7 := by
    unfold le16 at hcrc
    omega
  unfold handle_request
  norm_num [hcrc, hnot, append_crc, u16_le, e1, e2]
  unfold le16
  constructor <;> omega

/-- Witness for C10 at the concrete request `01 05 00 10 FF 00` + CRC
(coil address 16, one past the array end). -/
theorem write_coil_out_of_range_echo_witness :
    handle_request initState (append_crc [1, 5, 0, 16, 255, 0]) =
      (initState, HandleResult.response (append_crc [1, 5, 0, 16, 255, 0])) :=
  write_coil_out_of_range_echo initState (append_crc [1, 5, 0, 16, 255, 0])
    (by decide) (by decide) (by decide) (by decide) (by decide) (by decide) (by decide)

/-- Flip bit `p` (0 ≤ p < 16) of the two-byte CRC field of an 8-byte
frame: byte `6 + p / 8` has bit `p % 8` XOR-ed. -/
def crcBitFlip (frame : List Nat) (p : Nat) : List Nat :=
  frame.set (6 + p / 8) ((frame.getD (6 + p / 8) 0) ^^^ (1 <<< (p % 8)))

theorem eq_cons6_of_length_six (l : List Nat) (h : l.length = 6) :
    ∃ a0 a1 a2 a3 a4 a5, l = [a0, a1, a2, a3, a4, a5] := by
  cases l with
  | nil => simp at h
  | cons a0 t0 =>
  cases t0 with
  | nil => simp at h
  | cons a1 t1 =>
  cases t1 with
  | nil => simp at h
  | cons a2 t2 =>
  cases t2 with
  | nil => simp at h
  | cons a3 t3 =>
  cases t3 with
  | nil => simp at h
  | cons a4 t4 =>
  cases t4 with
  | nil => simp at h
  | cons a5 t5 =>
  cases t5 with
  | nil => exact ⟨a0, a1, a2, a3, a4, a5, rfl⟩
  | cons a6 t6 => simp at h

/-- C6: flipping any single bit of the two CRC bytes of a well-formed
8-byte frame (matching unit id, trailing bytes the little-endian CRC16 of
the first six) makes the slave reject the frame: no response and no
mutation of either array. -/
theorem crc_bit_flip_rejected (st : SlaveState) (b : List Nat) (p : Nat)
    (hb : b.length = 6) (hu : b.getD 0 0 = UNIT_ID) (hp : p < 16) :
    handle_request st (crcBitFlip (append_crc b) p) = (st, HandleResult.dropped) := by
  obtain ⟨a0, a1, a2, a3, a4, a5, rfl⟩ := eq_cons6_of_length_six b hb
  simp only [List.getD_cons_zero] at hu
  subst hu
  have hclt := crc16_modbus_lt [UNIT_ID, a1, a2, a3, a4, a5]
  have hxz : (1 <<< (p % 8)) ≠ 0 := by
    rw [Nat.shiftLeft_eq]
    have hpow := Nat.two_pow_pos (p % 8)
    omega
  rcases Nat.lt_or_ge p 8 with hp8 | hp8
  · have hdiv : p / 8 = 0 := Nat.div_eq_of_lt hp8
    have hstep : crcBitFlip (append_crc [UNIT_ID, a1, a2, a3, a4, a5]) p =
        [UNIT_ID, a1, a2, a3, a4, a5,
          (crc16_modbus [UNIT_ID, a1, a2, a3, a4, a5] % 256) ^^^ (1 <<< (p % 8)),
          crc16_modbus [UNIT_ID, a1, a2, a3, a4, a5] / 256 % 256] := by
      unfold crcBitFlip append_crc u16_le
      rw [hdiv]
      rfl
    have hxor := xor_ne_self
      (x := crc16_modbus [UNIT_ID, a1, a2, a3, a4, a5] % 256) hxz
    have hneq : crc16_modbus [UNIT_ID, a1, a2, a3, a4, a5] ≠
        le16 ((crc16_modbus [UNIT_ID, a1, a2, a3, a4, a5] % 256) ^^^ (1 <<< (p % 8)))
          (crc16_modbus [UNIT_ID, a1, a2, a3, a4, a5] / 256 % 256) := by
      unfold le16
      omega
    rw [hstep]
    unfold handle_request
    norm_num [hneq]
  · have hdiv : p / 8 = 1 := by omega
    have hstep : crcBitFlip (append_crc [UNIT_ID, a1, a2, a3, a4, a5]) p =
        [UNIT_ID, a1, a2, a3, a4, a5,
          crc16_modbus [UNIT_ID, a1, a2, a3, a4, a5] % 256,
          (crc16_modbus [UNIT_ID, a1, a2, a3, a4, a5] / 256 % 256) ^^^ (1 <<< (p % 8))] := by
      unfold crcBitFlip append_crc u16_le
      rw [hdiv]
      rfl
    have hxor := xor_ne_self
      (x := crc16_modbus [UNIT_ID, a1, a2, a3, a4, a5] / 256 % 256) hxz
    have hneq : crc16_modbus [UNIT_ID, a1, a2, a3, a4, a5] ≠
        le16 (crc16_modbus [UNIT_ID, a1, a2, a3, a4, a5] % 256)
          ((crc16_modbus [UNIT_ID, a1, a2, a3, a4, a5] / 256 % 256) ^^^ (1 <<< (p % 8))) := by
      unfold le16
      omega
    rw [hstep]
    unfold handle_request
    norm_num [hneq]

/-- Witness for C6: flipping bit 3 of the CRC field of the well-formed
write-coil frame `01 05 00 00 00 00` + CRC gets the frame dropped. -/
theorem crc_bit_flip_rejected_witness :
    handle_request initState (crcBitFlip (append_crc [1, 5, 0, 0, 0, 0]) 3) =
      (initState, HandleResult.dropped) :=
  crc_bit_flip_rejected initState [1, 5, 0, 0, 0, 0] 3 rfl rfl (by decide)

theorem pack_be16_and_mask (r : Nat) :
    pack_be16 (r &&& 0xFFFF) = [r % 65536 / 256, r % 65536 % 256] := by
  have h := Nat.and_pow_two_sub_one_eq_mod r 16
  norm_num at h
  unfold pack_be16
  rw [h]
  have h2 : r % 65536 / 256 % 256 = r % 65536 / 256 := by omega
  rw [h2]

theorem sum_eq_two_mul_length (l : List Nat) (h : ∀ x ∈ l, x = 2) :
    l.sum = 2 * l.length := by
  induction l with
  | nil => rfl
  | cons a t ih =>
      rw [List.sum_cons, List.length_cons,
        ih (fun x hx => h x (List.mem_cons_of_mem _ hx)),
        h a (List.mem_cons_self _ _)]
      ring

theorem length_flatMap_two (rs : List Nat) :
    (rs.flatMap (fun r => [r % 65536 / 256, r % 65536 % 256])).length = 2 * rs.length := by
  induction rs with
  | nil => rfl
  | cons r t ih =>
      rw [List.flatMap_cons, List.length_append, ih]
      simp
      omega

/-- C8: a valid 8-byte read-holding-registers request (matching unit,
valid CRC) whose range lies inside the holding array is answered with
`[unit][0x03][2*quantity]` followed by the requested registers as
big-endian 16-bit words (values taken mod 2^16), plus the CRC. -/
theorem read_holding_response (st : SlaveState) (req : List Nat)
    (h8 : req.length = 8) (hu : req.getD 0 0 = UNIT_ID) (hf : req.getD 1 0 = 0x03)
    (hcrc : crc16_modbus (req.take 6) = le16 (req.getD 6 0) (req.getD 7 0))
    (hrange : be16 (req.getD 2 0) (req.getD 3 0) + be16 (req.getD 4 0) (req.getD 5 0)
      ≤ st.holding.length) :
    handle_request st req =
      (st, HandleResult.response (append_crc
        ([UNIT_ID, 0x03, 2 * be16 (req.getD 4 0) (req.getD 5 0)] ++
          ((st.holding.drop (be16 (req.getD 2 0) (req.getD 3 0))).take
              (be16 (req.getD 4 0) (req.getD 5 0))).flatMap
            (fun r => [r % 65536 / 256, r % 65536 % 256])))) := by
  obtain ⟨r0, r1, r2, r3, r4, r5, r6, r7, rfl⟩ := eq_cons8_of_length_eight req h8
  simp only [List.getD_cons_zero, List.getD_cons_succ] at hu hf hcrc hrange ⊢
  simp only [List.take_succ_cons, List.take_zero] at hcrc
  subst hu
  subst hf
  have hfun : (fun r => pack_be16 (r &&& 0xFFFF)) =
      (fun r : Nat => [r % 65536 / 256, r % 65536 % 256]) := funext pack_be16_and_mask
  have hlenregs : ((st.holding.drop (be16 r2 r3)).take (be16 r4 r5)).length =
      be16 r4 r5 := by
    rw [List.length_take, List.length_drop]
    omega
  have hdatalen : (((st.holding.drop (be16 r2 r3)).take (be16 r4 r5)).flatMap
      (fun r : Nat => [r % 65536 / 256, r % 65536 % 256])).length =
      2 * be16 r4 r5 := by
    rw [length_flatMap_two, hlenregs]
  unfold handle_request
  norm_num [hcrc, hfun, hdatalen]
  have hsum : (List.take (be16 r4 r5) (List.drop (be16 r2 r3)
      (List.map (List.length ∘ fun r : Nat => [r % 65536 / 256, r % 256])
        st.holding))).sum = 2 * be16 r4 r5 := by
    have hmem : ∀ x ∈ List.take (be16 r4 r5) (List.drop (be16 r2 r3)
        (List.map (List.length ∘ fun r : Nat => [r % 65536 / 256, r % 256])
          st.holding)), x = 2 := by
      intro x hx
      have hx2 := List.mem_of_mem_drop (List.mem_of_mem_take hx)
      obtain ⟨r, hr, rfl⟩ := List.mem_map.mp hx2
      rfl
    have hlen2 : (List.take (be16 r4 r5) (List.drop (be16 r2 r3)
        (List.map (List.length ∘ fun r : Nat => [r % 65536 / 256, r % 256])
          st.holding))).length = be16 r4 r5 := by
      rw [List.length_take, List.length_drop, List.length_map]
      omega
    rw [sum_eq_two_mul_length _ hmem, hlen2]
  rw [hsum]

/-- Witness for C8: reading two registers from a store holding values
70000 and 5 returns their low 16 bits big-endian. -/
theorem read_holding_response_witness :
    handle_request
        { coils := List.replicate 16 0, holding := 70000 :: 5 :: List.replicate 14 0 }
        (append_crc [1, 3, 0, 0, 0, 2]) =
      ({ coils := List.replicate 16 0, holding := 70000 :: 5 :: List.replicate 14 0 },
        HandleResult.response [1, 3, 4, 17, 112, 0, 5, 62, 215]) := by
  rw [read_holding_response
    { coils := List.replicate 16 0, holding := 70000 :: 5 :: List.replicate 14 0 }
    (append_crc [1, 3, 0, 0, 0, 2]) (by decide) (by decide) (by decide) (by decide)
    (by decide)]
  rfl

theorem exists_cons8_prefix (l : List Nat) (h : l.length = 16) :
    ∃ c0 c1 c2 c3 c4 c5 c6 c7 t,
      l = c0 :: c1 :: c2 :: c3 :: c4 :: c5 :: c6 :: c7 :: t := by
  cases l with
  | nil => simp at h
  | cons c0 t0 =>
  cases t0 with
  | nil => simp at h
  | cons c1 t1 =>
  cases t1 with
  | nil => simp at h
  | cons c2 t2 =>
  cases t2 with
  | nil => simp at h
  | cons c3 t3 =>
  cases t3 with
  | nil => simp at h
  | cons c4 t4 =>
  cases t4 with
  | nil => simp at h
  | cons c5 t5 =>
  cases t5 with
  | nil => simp at h
  | cons c6 t6 =>
  cases t6 with
  | nil => simp at h
  | cons c7 t7 =>
  exact ⟨c0, c1, c2, c3, c4, c5, c6, c7, t7, rfl⟩

/-- C3: the master's encoding of write-coil(addr 0, value true), decoded
by the slave's handler, sets coil 0 to 1 and echoes the request (same
address/value pair); and for quantity 8 the slave's bit-packing
(`pack_coils`, bit `i` of byte `i/8`, low bit first) composed with the
master's bit-unpacking loop recovers exactly the 8 coil bits of the
store. -/
theorem frame_roundtrip (st : SlaveState) (hlen : st.coils.length = 16)
    (h01 : ∀ x ∈ st.coils, x ≤ 1) :
    handle_request st (write_coil_request UNIT_ID 0 true) =
      ({ st with coils := st.coils.set 0 1 },
        HandleResult.response (write_coil_request UNIT_ID 0 true)) ∧
    bits_from_bytes 8 (pack_coils st.coils 0 8) = st.coils.take 8 := by
  constructor
  · have hreq : write_coil_request UNIT_ID 0 true = [1, 5, 0, 0, 255, 0, 140, 58] := by
      decide
    have hcrcv : crc16_modbus [1, 5, 0, 0, 255, 0] = le16 140 58 := by decide
    have hne : ¬ st.coils = [] := by
      intro hh
      rw [hh] at hlen
      simp at hlen
    rw [hreq]
    unfold handle_request
    norm_num [UNIT_ID, hcrcv, hne, append_crc, u16_le, be16, le16]
  · obtain ⟨c0, c1, c2, c3, c4, c5, c6, c7, t, hc⟩ := exists_cons8_prefix st.coils hlen
    have h0 : c0 = 0 ∨ c0 = 1 := by have := h01 c0 (by rw [hc]; simp); omega
    have h1 : c1 = 0 ∨ c1 = 1 := by have := h01 c1 (by rw [hc]; simp); omega
    have h2 : c2 = 0 ∨ c2 = 1 := by have := h01 c2 (by rw [hc]; simp); omega
    have h3 : c3 = 0 ∨ c3 = 1 := by have := h01 c3 (by rw [hc]; simp); omega
    have h4 : c4 = 0 ∨ c4 = 1 := by have := h01 c4 (by rw [hc]; simp); omega
    have h5 : c5 = 0 ∨ c5 = 1 := by have := h01 c5 (by rw [hc]; simp); omega
    have h6 : c6 = 0 ∨ c6 = 1 := by have := h01 c6 (by rw [hc]; simp); omega
    have h7 : c7 = 0 ∨ c7 = 1 := by have := h01 c7 (by rw [hc]; simp); omega
    rw [hc]
    rcases h0 with rfl | rfl <;> rcases h1 with rfl | rfl <;>
      rcases h2 with rfl | rfl <;> rcases h3 with rfl | rfl <;>
      rcases h4 with rfl | rfl <;> rcases h5 with rfl | rfl <;>
      rcases h6 with rfl | rfl <;> rcases h7 with rfl | rfl <;> rfl

/-- A concrete store used to witness C3. -/
def stW : SlaveState :=
  { coils := [1, 0, 1, 0, 0, 0, 0, 1, 0, 0, 0, 0, 0, 0, 0, 0],
    holding := List.replicate 16 0 }

/-- Witness for C3 at the concrete store `stW`. -/
theorem frame_roundtrip_witness :
    handle_request stW (write_coil_request UNIT_ID 0 true) =
      ({ stW with coils := stW.coils.set 0 1 },
        HandleResult.response (write_coil_request UNIT_ID 0 true)) ∧
    bits_from_bytes 8 (pack_coils stW.coils 0 8) = stW.coils.take 8 :=
  frame_roundtrip stW (by decide) (by decide)

theorem handle_request_holding (st : SlaveState) (req : List Nat) :
    ((handle_request st req).1).holding = st.holding := by
  simp only [handle_request]
  repeat' split
  all_goals rfl

/-- C9: in every step of the combined system (simulation tick, frame
dispatch, local button), if coil 0 is clear then holding register 0 keeps
its value; frame dispatch (in particular the 0x03 handler) and the local
button never write any holding register, so the simulation tick is the
only writer of holding register 0. -/
theorem holding0_frozen (st : SlaveState) (cnt : Nat) :
    (∀ k, st.coils.getD 0 0 = 0 →
      ((sysStep (st, cnt) k).1).holding.getD 0 0 = st.holding.getD 0 0) ∧
    (∀ req, ((sysStep (st, cnt) (StepKind.frame req)).1).holding = st.holding) ∧
    (∀ v, ((sysStep (st, cnt) (StepKind.localSet v)).1).holding = st.holding) := by
  refine ⟨?_, ?_, ?_⟩
  · intro k h0
    cases k with
    | tick elapsed =>
        unfold sysStep
        simp only [List.getD, List.get?_eq_getElem?] at h0
        simp [h0]
    | frame req =>
        unfold sysStep
        rw [handle_request_holding]
    | localSet v => rfl
  · intro req
    unfold sysStep
    rw [handle_request_holding]
  · intro v
    rfl

/-- Witness for C9: a tick from the initial state (coil 0 clear) leaves
holding register 0 unchanged. -/
theorem holding0_frozen_witness :
    ((sysStep (initState, 0) (StepKind.tick true)).1).holding.getD 0 0 =
      initState.holding.getD 0 0 :=
  (holding0_frozen initState 0).1 (StepKind.tick true) (by decide)

end ModbusRTU
